import Mathlib

/-
  Verification development for the interfaces_file module
  (src/files/interfaces_file.py): a line-oriented parser for
  /etc/network/interfaces files (read_interfaces_lines) and a surgical
  single-option editor (setInterfaceOption).

  Lines are modelled as lists of characters; Python string primitives
  (split, find, slicing, replace) are embedded with their Python
  semantics, including negative-index slicing and find returning -1.
  Python dicts holding heterogeneous line records are modelled by the
  structure LineRecord, a missing key being a none field, so that
  record equality (used by the source through !=, list.index and
  filter) coincides with Python dict equality.  fail_json aborts the
  whole operation in the source (AnsibleModule exits), so both
  entry points return Except.
-/

set_option maxHeartbeats 1000000

namespace InterfacesFile

/-- Characters Python str.split treats as whitespace. -/
def isPySpace (c : Char) : Bool :=
  c = ' ' || c = '\t' || c = '\n' || c = '\r' || c = '\x0b' || c = '\x0c'

/-- Python line.split(): maximal runs of non-whitespace characters, in order. -/
def pySplit : List Char → List (List Char)
  | [] => []
  | c :: rest =>
    let ws := pySplit rest
    if isPySpace c then ws
    else
      match rest, ws with
      | [], _ => [[c]]
      | _ :: _, [] => [[c]]
      | d :: _, w :: ws' => if isPySpace d then [c] :: w :: ws' else (c :: w) :: ws'

/-- Least index i with start <= i at which sub occurs in t (a negative start
counts from the end, clamped at 0, as in Python). -/
def pyFindN (t sub : List Char) (start : Int) : Option Nat :=
  let st : Nat := if start < 0 then ((t.length : Int) + start).toNat else start.toNat
  (List.range (t.length + 1)).find? (fun i => decide (st ≤ i) && sub.isPrefixOf (t.drop i))

/-- Python t.find(sub, start): index of the first occurrence, or -1. -/
def pyFind (t sub : List Char) (start : Int) : Int :=
  match pyFindN t sub start with
  | some i => (i : Int)
  | none => -1

/-- Python slice t[a:b] with full index semantics (negative indices count
from the end, everything is clamped to the list). -/
def pySlice (t : List Char) (a b : Int) : List Char :=
  let n := t.length
  let a' : Nat := if a < 0 then ((n : Int) + a).toNat else min a.toNat n
  let b' : Nat := if b < 0 then ((n : Int) + b).toNat else min b.toNat n
  (t.take b').drop a'

/-- Helper for pyReplace with a nonempty pattern; the fuel argument is the
length of the scanned text, which bounds the recursion depth, so it is
never exhausted on the initial call. -/
def pyReplaceAux (old new : List Char) : Nat → List Char → List Char
  | _, [] => []
  | 0, t => t
  | fuel + 1, c :: rest =>
    if old.isPrefixOf (c :: rest) then
      new ++ pyReplaceAux old new fuel ((c :: rest).drop old.length)
    else c :: pyReplaceAux old new fuel rest

/-- Python t.replace(old, new): all non-overlapping occurrences, left to
right; an empty pattern inserts new before every character and at the end. -/
def pyReplace (t old new : List Char) : List Char :=
  if old.isEmpty then new ++ t.foldr (fun c acc => c :: (new ++ acc)) []
  else pyReplaceAux old new t.length t

/-- A Python dict from strings to strings, as an insertion-ordered
association list with unique keys. -/
abbrev PyDict := List (List Char × List Char)

/-- Python d[k] = v on a string-valued dict: replace in place, else append. -/
def dictSet (k v : List Char) : PyDict → PyDict
  | [] => [(k, v)]
  | (k', v') :: rest => if k' = k then (k', v) :: rest else (k', v') :: dictSet k v rest

/-- Python d.get(k) on a string-valued dict. -/
def dictGet? (k : List Char) : PyDict → Option (List Char)
  | [] => none
  | (k', v') :: rest => if k' = k then some v' else dictGet? k rest

/-- Python d[k] = v on the iface-name -> stanza-dict mapping. -/
def dictSetP (k : List Char) (v : PyDict) : List (List Char × PyDict) → List (List Char × PyDict)
  | [] => [(k, v)]
  | (k', v') :: rest => if k' = k then (k', v) :: rest else (k', v') :: dictSetP k v rest

/-- The line_type values appearing in the source: 'unknown', 'option', 'iface'. -/
inductive LineType
  | unknown
  | option
  | iface
deriving DecidableEq

/-- One parsed line, as the dicts built by lineDict, optionDict and the
iface branch of read_interfaces_lines; an absent dict key is a none field,
so equality of records is Python dict equality. -/
structure LineRecord where
  line : List Char
  line_type : LineType
  iface : Option (List Char) := none
  option : Option (List Char) := none
  value : Option (List Char) := none
  params : Option PyDict := none
deriving DecidableEq

/-- Source lineDict: {'line': line, 'line_type': 'unknown'}. -/
def lineDict (l : List Char) : LineRecord :=
  { line := l, line_type := LineType.unknown }

/-- Source optionDict: {'line':., 'iface':., 'option':., 'value':., 'line_type':'option'}. -/
def optionDict (l ifc opt v : List Char) : LineRecord :=
  { line := l, line_type := LineType.option, iface := some ifc,
    option := some opt, value := some v }

/-- Fatal parser failures: fail_json on a malformed iface line (reporting
the 1-based line number and len(words)), fail_json on a misplaced option,
and the ValueError raised by unpacking words[1:4] into three variables
when an iface line has fewer than 4 words (the source unpacks before it
checks the count). -/
inductive ParseError
  | malformedIfaceLine (lineNum : Nat) (wordCount : Nat)
  | misplacedOption (line : List Char) (lineNum : Nat)
  | ifaceUnpackError (lineNum : Nat)
deriving DecidableEq

/-- The currently_processing variable: initially Python None, then one of
the strings "NONE", "IFACE", "MAPPING". -/
inductive PMode
  | UNDEF
  | NONE
  | IFACE
  | MAPPING
deriving DecidableEq

/-- Parser loop state: records accumulated most-recent-first, the ifaces
mapping, the mode, and the key under which the current stanza dict was
registered in ifaces (Python aliases the dict object; currKey remembers
which mapping entry shares it). -/
structure ParseState where
  revLines : List LineRecord
  ifaces : List (List Char × PyDict)
  mode : PMode
  currKey : List Char
deriving DecidableEq

/-- The params dict of the most recently emitted iface record: this is the
dict the source's currif variable aliases. -/
def currifOf : List LineRecord → PyDict
  | [] => []
  | r :: rs => if r.line_type = LineType.iface then r.params.getD [] else currifOf rs

/-- Mutation currif[k] = v seen through the record list: updates the params
of the most recently emitted iface record (the holder of the aliased dict). -/
def updCurrif (k v : List Char) : List LineRecord → List LineRecord
  | [] => []
  | r :: rs =>
    if r.line_type = LineType.iface then
      { r with params := some (dictSet k v (r.params.getD [])) } :: rs
    else r :: updCurrif k v rs

/-- Mutation currif[k] = v seen through the ifaces mapping: the entry under
key (the name the stanza was registered with) shares the dict. -/
def mapSet (key k v : List Char) (m : List (List Char × PyDict)) : List (List Char × PyDict) :=
  m.map (fun p => if p.1 = key then (p.1, dictSet k v p.2) else p)

/-- One iteration of the read_interfaces_lines loop on line number i
(1-based).  Mirrors the source's first-word dispatch; i is the source's
loop counter after the increment at the top of the body. -/
def parseStep (st : ParseState) (i : Nat) (line : List Char) : Except ParseError ParseState :=
  let words := pySplit line
  match words with
  | [] => .ok { st with revLines := lineDict line :: st.revLines }
  | w :: rest =>
    if w.headD ' ' = '#' then
      .ok { st with revLines := lineDict line :: st.revLines }
    else if w = ("mapping").toList then
      .ok { st with revLines := lineDict line :: st.revLines, mode := PMode.MAPPING }
    else if w = ("source").toList then
      .ok { st with revLines := lineDict line :: st.revLines, mode := PMode.NONE }
    else if w = ("source-dir").toList then
      .ok { st with revLines := lineDict line :: st.revLines, mode := PMode.NONE }
    else if w = ("iface").toList then
      if (w :: rest).length < 4 then .error (ParseError.ifaceUnpackError i)
      else
        let iface_name := (w :: rest).getD 1 []
        let address_family_name := (w :: rest).getD 2 []
        let method_name := (w :: rest).getD 3 []
        if (w :: rest).length ≠ 4 then
          .error (ParseError.malformedIfaceLine i (w :: rest).length)
        else
          let currif : PyDict :=
            [(("name").toList, iface_name),
             (("address_family").toList, address_family_name),
             (("method").toList, method_name)]
          .ok { revLines :=
                  { line := line, line_type := LineType.iface,
                    iface := some iface_name, params := some currif } :: st.revLines,
                ifaces := dictSetP iface_name currif st.ifaces,
                mode := PMode.IFACE,
                currKey := iface_name }
    else if w = ("auto").toList then
      .ok { st with revLines := lineDict line :: st.revLines, mode := PMode.NONE }
    else if w = ("allow-").toList then
      .ok { st with revLines := lineDict line :: st.revLines, mode := PMode.NONE }
    else if w = ("no-auto-down").toList then
      .ok { st with revLines := lineDict line :: st.revLines, mode := PMode.NONE }
    else if w = ("no-scripts").toList then
      .ok { st with revLines := lineDict line :: st.revLines, mode := PMode.NONE }
    else
      match st.mode with
      | PMode.IFACE =>
        let v := List.intercalate ([' ']) rest
        let nm := (dictGet? (("name").toList) (currifOf st.revLines)).getD []
        .ok { st with
              revLines := updCurrif w v (optionDict line nm w v :: st.revLines),
              ifaces := mapSet st.currKey w v st.ifaces }
      | PMode.MAPPING => .ok { st with revLines := lineDict line :: st.revLines }
      | PMode.NONE => .ok { st with revLines := lineDict line :: st.revLines }
      | PMode.UNDEF => .error (ParseError.misplacedOption line i)

/-- The read_interfaces_lines loop over the remaining lines; i is the
number of lines already consumed. -/
def parseLines : ParseState → Nat → List (List Char) → Except ParseError ParseState
  | st, _, [] => .ok st
  | st, i, l :: rest =>
    match parseStep st (i + 1) l with
    | .error e => .error e
    | .ok st' => parseLines st' (i + 1) rest

/-- Initial parser state: no records, empty ifaces dict, mode None. -/
def initState : ParseState :=
  { revLines := [], ifaces := [], mode := PMode.UNDEF, currKey := [] }

/-- read_interfaces_lines: returns (lines, ifaces) or aborts via fail_json. -/
def parse (input : List (List Char)) :
    Except ParseError (List LineRecord × List (List Char × PyDict)) :=
  match parseLines initState 0 input with
  | .error e => .error e
  | .ok st => .ok (st.revLines.reverse, st.ifaces)

/-- Fatal editor failures (both raised through fail_json, which aborts). -/
inductive EditError
  | interfaceNotFound (iface : List Char)
  | unsupportedState (state : List Char)
deriving DecidableEq

/-- Source iface_lines: records carrying an 'iface' key equal to iface. -/
def ifaceLinesOf (lines : List LineRecord) (ifc : List Char) : List LineRecord :=
  lines.filter (fun r => decide (r.iface = some ifc))

/-- Source iface_options: the interface's records of line_type 'option'. -/
def ifaceOptionsOf (lines : List LineRecord) (ifc : List Char) : List LineRecord :=
  (ifaceLinesOf lines ifc).filter (fun r => decide (r.line_type = LineType.option))

/-- Source target_options: the interface's option records for this option. -/
def targetOptionsOf (lines : List LineRecord) (ifc opt : List Char) : List LineRecord :=
  (ifaceOptionsOf lines ifc).filter (fun r => decide (r.option = some opt))

/-- Python list.index by record equality (the source uses it only on
elements present in the list, where it cannot raise). -/
def pyIndex (l : List LineRecord) (x : LineRecord) : Nat :=
  l.findIdx (fun y => decide (y = x))

/-- setInterfaceOption from the source, on the parsed record list.  The
partial Python accesses are total here exactly where they are unreachable
in the source: split()[0] / split()[-1] of an anchor line (iface and
option records always have at least one word) default to [], and the
'value' key of a target option (always present on optionDict records)
defaults to []. -/
def setInterfaceOption (lines : List LineRecord) (ifc opt value state : List Char) :
    Except EditError (Bool × List LineRecord) :=
  let iface_lines := ifaceLinesOf lines ifc
  if iface_lines.length < 1 then .error (EditError.interfaceNotFound ifc)
  else
    let iface_options := ifaceOptionsOf lines ifc
    let target_options := targetOptionsOf lines ifc opt
    if state = ("present").toList then
      if target_options.length < 1 then
        let last_line_dict := iface_lines.getLastD (lineDict [])
        let last_line := last_line_dict.line
        let w0 := (pySplit last_line).headD []
        let wn := (pySplit last_line).getLastD []
        let prefix_start := pyFind last_line w0 0
        let suffix_start := pyFind last_line wn 0 + (wn.length : Int)
        let newText := pySlice last_line 0 prefix_start
          ++ (if iface_options.length < 1 then ("    ").toList else [])
          ++ opt ++ ' ' :: value
          ++ pySlice last_line suffix_start (last_line.length : Int)
        let option_dict := optionDict newText ifc opt value
        let index := lines.length - pyIndex lines.reverse last_line_dict
        .ok (true, lines.take index ++ option_dict :: lines.drop index)
      else
        let target_option := target_options.getLastD (lineDict [])
        if pySplit (target_option.value.getD []) = pySplit value then .ok (false, lines)
        else
          let old_line := target_option.line
          let old_value := target_option.value.getD []
          let prefix_start := pyFind old_line opt 0
          let start := pyFind old_line old_value (prefix_start + (opt.length : Int) - 1)
          let newText := pySlice old_line 0 start
            ++ pyReplace (pySlice old_line start (start + (old_value.length : Int)))
                 old_value value
            ++ pySlice old_line (start + (old_value.length : Int)) (old_line.length : Int)
          let index := lines.length - pyIndex lines.reverse target_option - 1
          .ok (true, lines.set index (optionDict newText ifc opt value))
    else if state = ("absent").toList then
      if target_options.length ≥ 1 then
        .ok (true, lines.filter (fun l => decide (¬ l = target_options.headD (lineDict []))))
      else .ok (false, lines)
    else .error (EditError.unsupportedState state)

/-
  Named characterizations of the editor's branch results.  Each repeats the
  corresponding let-block of setInterfaceOption verbatim so that branch
  behaviour can be stated and reused; the lemmas below prove they agree.
-/

/-- The text of the line synthesized by the add-new-option branch. -/
def insertLineText (lines : List LineRecord) (ifc opt value : List Char) : List Char :=
  let last_line := ((ifaceLinesOf lines ifc).getLastD (lineDict [])).line
  let w0 := (pySplit last_line).headD []
  let wn := (pySplit last_line).getLastD []
  pySlice last_line 0 (pyFind last_line w0 0)
    ++ (if (ifaceOptionsOf lines ifc).length < 1 then ("    ").toList else [])
    ++ opt ++ ' ' :: value
    ++ pySlice last_line (pyFind last_line wn 0 + (wn.length : Int)) (last_line.length : Int)

/-- The position at which the add-new-option branch inserts. -/
def insertIndex (lines : List LineRecord) (ifc : List Char) : Nat :=
  lines.length - pyIndex lines.reverse ((ifaceLinesOf lines ifc).getLastD (lineDict []))

/-- The text of the line produced by the change-value branch. -/
def updateText (lines : List LineRecord) (ifc opt value : List Char) : List Char :=
  let target_option := (targetOptionsOf lines ifc opt).getLastD (lineDict [])
  let old_line := target_option.line
  let old_value := target_option.value.getD []
  let prefix_start := pyFind old_line opt 0
  let start := pyFind old_line old_value (prefix_start + (opt.length : Int) - 1)
  pySlice old_line 0 start
    ++ pyReplace (pySlice old_line start (start + (old_value.length : Int))) old_value value
    ++ pySlice old_line (start + (old_value.length : Int)) (old_line.length : Int)

/-- The position rewritten in place by the change-value branch. -/
def updateIndex (lines : List LineRecord) (ifc opt : List Char) : Nat :=
  lines.length - pyIndex lines.reverse ((targetOptionsOf lines ifc opt).getLastD (lineDict [])) - 1

/-- The predicate target_options selects, merged into one test. -/
def isTargetRec (ifc opt : List Char) (r : LineRecord) : Bool :=
  decide (r.option = some opt) && (decide (r.line_type = LineType.option) && decide (r.iface = some ifc))

/-
  Concrete records used by the scenario theorems below.  Where a theorem
  also states the corresponding parse equation, the params field is the
  final content of the stanza dict after the whole file is read (the source
  mutates the shared currif dict in place).
-/

/-- The stanza dict of a plain (iface eth0 inet static) header. -/
def paramsEth0Static : PyDict :=
  [(("name").toList, ("eth0").toList),
   (("address_family").toList, ("inet").toList),
   (("method").toList, ("static").toList)]

/-- Header record of (iface eth0 inet static) with no option lines. -/
def recIfaceStatic : LineRecord :=
  { line := ("iface eth0 inet static\n").toList, line_type := LineType.iface,
    iface := some (("eth0").toList), params := some paramsEth0Static }

/-- Header record once an (mtu 1500) option line has been read. -/
def recIfaceStaticMtu : LineRecord :=
  { line := ("iface eth0 inet static\n").toList, line_type := LineType.iface,
    iface := some (("eth0").toList),
    params := some (paramsEth0Static ++ [(("mtu").toList, ("1500").toList)]) }

/-- Option record of a (    mtu 1500) line under eth0. -/
def recMtu1500 : LineRecord :=
  optionDict (("    mtu 1500\n").toList) (("eth0").toList) (("mtu").toList) (("1500").toList)

/-- Option record of a (    mtu 9000) line under eth0. -/
def recMtu9000 : LineRecord :=
  optionDict (("    mtu 9000\n").toList) (("eth0").toList) (("mtu").toList) (("9000").toList)

/-- Option record of a (    address 10.0.0.1) line under eth0. -/
def recAddr : LineRecord :=
  optionDict (("    address 10.0.0.1\n").toList) (("eth0").toList)
    (("address").toList) (("10.0.0.1").toList)

/-- Header record once an (ab b b) option line has been read. -/
def recIfaceStaticAb : LineRecord :=
  { line := ("iface eth0 inet static\n").toList, line_type := LineType.iface,
    iface := some (("eth0").toList),
    params := some (paramsEth0Static ++ [(("ab").toList, ("b b").toList)]) }

/-- Option record of an (ab b b) line under eth0. -/
def recAb : LineRecord :=
  optionDict (("ab b b\n").toList) (("eth0").toList) (("ab").toList) (("b b").toList)

/-- Header record of (iface eth0 inet inet), whose method repeats the family. -/
def recIfaceInet : LineRecord :=
  { line := ("iface eth0 inet inet\n").toList, line_type := LineType.iface,
    iface := some (("eth0").toList),
    params := some [(("name").toList, ("eth0").toList),
                    (("address_family").toList, ("inet").toList),
                    (("method").toList, ("inet").toList)] }

/-- Parser state immediately after reading an (iface eth0 inet static) header. -/
def stateAfterIface : ParseState :=
  { revLines := [recIfaceStatic],
    ifaces := [(("eth0").toList, paramsEth0Static)],
    mode := PMode.IFACE,
    currKey := ("eth0").toList }

/-
  Generic list lemmas used throughout.
-/

theorem findIdx_append_not {α : Type} (p : α → Bool) (l1 l2 : List α)
    (h : ∀ a ∈ l1, p a = false) :
    (l1 ++ l2).findIdx p = l1.length + l2.findIdx p := by
  induction l1 with
  | nil => simp
  | cons a t ih =>
    have ha : p a = false := h a (by simp)
    have ht : ∀ b ∈ t, p b = false := fun b hb => h b (by simp [hb])
    simp [List.findIdx_cons, ha, ih ht]
    omega

theorem lastOcc_decomp {α : Type} [DecidableEq α] (x : α) :
    ∀ l : List α, x ∈ l → ∃ A B : List α, l = A ++ x :: B ∧ ∀ b ∈ B, b ≠ x := by
  intro l hl
  induction l with
  | nil => cases hl
  | cons c rest ih =>
    by_cases hx : x ∈ rest
    · obtain ⟨A, B, hAB, hB⟩ := ih hx
      exact ⟨c :: A, B, by simp [hAB], hB⟩
    · have hc : x = c := by
        rcases List.mem_cons.mp hl with h | h
        · exact h
        · exact absurd h hx
      subst hc
      exact ⟨[], rest, rfl, fun b hb hbx => hx (hbx ▸ hb)⟩

theorem set_append_cons {α : Type} (A : List α) (x y : α) (B : List α) :
    (A ++ x :: B).set A.length y = A ++ y :: B := by
  induction A with
  | nil => rfl
  | cons a t ih => simp [ih]

theorem take_append_cons {α : Type} (A : List α) (x : α) (B : List α) :
    (A ++ x :: B).take (A.length + 1) = A ++ [x] := by
  induction A with
  | nil => simp
  | cons a t ih => simp [ih]

theorem drop_append_cons {α : Type} (A : List α) (x : α) (B : List α) :
    (A ++ x :: B).drop (A.length + 1) = B := by
  induction A with
  | nil => simp
  | cons a t ih => simp [ih]

theorem getLastD_irrel {α : Type} {l : List α} (h : l ≠ []) (d d' : α) :
    l.getLastD d = l.getLastD d' := by
  cases l with
  | nil => exact absurd rfl h
  | cons a t => rw [List.getLastD_cons, List.getLastD_cons]

theorem getLastD_append_right {α : Type} (l1 : List α) {l2 : List α} (d : α) (h : l2 ≠ []) :
    (l1 ++ l2).getLastD d = l2.getLastD d := by
  induction l1 generalizing d with
  | nil => rfl
  | cons a t ih =>
    rw [List.cons_append, List.getLastD_cons, ih a, getLastD_irrel h a d]

theorem getLastD_mem {α : Type} : ∀ (l : List α) (d : α), l ≠ [] → l.getLastD d ∈ l := by
  intro l
  induction l with
  | nil => intro d h; exact absurd rfl h
  | cons a t ih =>
    intro d _
    rw [List.getLastD_cons]
    by_cases hnil : t = []
    · subst hnil; simp
    · exact List.mem_cons_of_mem a (ih a hnil)

theorem length_filter_not {α : Type} (l : List α) (p : α → Bool) :
    (l.filter p).length + (l.filter (fun a => ! p a)).length = l.length := by
  induction l with
  | nil => rfl
  | cons a t ih =>
    by_cases hp : p a = true
    · simp [List.filter_cons, hp, ← ih]; omega
    · have hp' : p a = false := by simpa using hp
      simp [List.filter_cons, hp', ← ih]; omega

theorem filter_getLast_aux {α : Type} [DecidableEq α] (p : α → Bool) (l : List α) (d x : α)
    (hx : (l.filter p).getLastD d = x) (h : l.filter p ≠ []) :
    ∃ A B, l = A ++ x :: B ∧ (∀ b ∈ B, p b = false) ∧ (∀ b ∈ B, b ≠ x) := by
  have hxf : x ∈ l.filter p := hx ▸ getLastD_mem _ _ h
  have hpx : p x = true := (List.mem_filter.mp hxf).2
  have hxl : x ∈ l := (List.mem_filter.mp hxf).1
  obtain ⟨A, B, hAB, hB⟩ := lastOcc_decomp _ l hxl
  refine ⟨A, B, hAB, ?_, hB⟩
  intro b hb
  by_contra hpb
  have hpb' : p b = true := by simpa using hpb
  have hBne : B.filter p ≠ [] := List.ne_nil_of_mem (List.mem_filter.mpr ⟨hb, hpb'⟩)
  have hfl : l.filter p = A.filter p ++ x :: B.filter p := by
    rw [hAB, List.filter_append, List.filter_cons, if_pos hpx]
  have h1 : x = (B.filter p).getLastD d := by
    rw [← hx, hfl, getLastD_append_right _ d (by simp), List.getLastD_cons]
    exact getLastD_irrel hBne _ d
  have h2 : x ∈ B.filter p := h1 ▸ getLastD_mem _ _ hBne
  exact hB _ (List.mem_filter.mp h2).1 rfl

theorem filter_getLast_decomp {α : Type} [DecidableEq α] (p : α → Bool) (l : List α) (d : α)
    (h : l.filter p ≠ []) :
    ∃ A B, l = A ++ (l.filter p).getLastD d :: B ∧ (∀ b ∈ B, p b = false) ∧
      (∀ b ∈ B, b ≠ (l.filter p).getLastD d) :=
  filter_getLast_aux p l d _ rfl h

theorem pyIndex_reverse_decomp (A B : List LineRecord) (x : LineRecord)
    (hB : ∀ b ∈ B, b ≠ x) :
    pyIndex (A ++ x :: B).reverse x = B.length := by
  have h1 : (A ++ x :: B).reverse = B.reverse ++ x :: A.reverse := by
    simp [List.reverse_append]
  rw [pyIndex, h1,
    findIdx_append_not _ _ _ (fun a ha => by
      simpa using hB a (List.mem_reverse.mp ha))]
  simp [List.findIdx_cons]

/-
  Structure of the record filters.
-/

theorem targetOptionsOf_eq_filter (lines : List LineRecord) (ifc opt : List Char) :
    targetOptionsOf lines ifc opt = lines.filter (isTargetRec ifc opt) := by
  simp only [targetOptionsOf, ifaceOptionsOf, ifaceLinesOf, List.filter_filter]
  rfl

theorem mem_targetOptionsOf {lines : List LineRecord} {ifc opt : List Char} {r : LineRecord} :
    r ∈ targetOptionsOf lines ifc opt ↔
      r ∈ lines ∧ r.option = some opt ∧ r.line_type = LineType.option ∧ r.iface = some ifc := by
  rw [targetOptionsOf_eq_filter]
  simp [List.mem_filter, isTargetRec]

theorem targetOptionsOf_append (l1 l2 : List LineRecord) (ifc opt : List Char) :
    targetOptionsOf (l1 ++ l2) ifc opt = targetOptionsOf l1 ifc opt ++ targetOptionsOf l2 ifc opt := by
  simp [targetOptionsOf_eq_filter]

theorem targetOptionsOf_nil_of (B : List LineRecord) (ifc opt : List Char)
    (h : ∀ b ∈ B, isTargetRec ifc opt b = false) : targetOptionsOf B ifc opt = [] := by
  rw [targetOptionsOf_eq_filter]
  exact List.filter_eq_nil_iff.mpr (fun a ha => by simp [h a ha])

theorem isTargetRec_optionDict (ifc opt value t : List Char) :
    isTargetRec ifc opt (optionDict t ifc opt value) = true := by
  simp [isTargetRec, optionDict]

theorem targetOptionsOf_cons_target (r : LineRecord) (l : List LineRecord) (ifc opt : List Char)
    (h : isTargetRec ifc opt r = true) :
    targetOptionsOf (r :: l) ifc opt = r :: targetOptionsOf l ifc opt := by
  rw [targetOptionsOf_eq_filter, targetOptionsOf_eq_filter, List.filter_cons, if_pos h]

theorem ifaceLines_ne_of_targets {lines : List LineRecord} {ifc opt : List Char}
    (h : targetOptionsOf lines ifc opt ≠ []) : ifaceLinesOf lines ifc ≠ [] := by
  intro hc
  exact h (by simp [targetOptionsOf, ifaceOptionsOf, hc])

theorem targets_decomp (lines : List LineRecord) (ifc opt : List Char)
    (h : targetOptionsOf lines ifc opt ≠ []) :
    ∃ A B, lines = A ++ (targetOptionsOf lines ifc opt).getLastD (lineDict []) :: B ∧
      targetOptionsOf B ifc opt = [] ∧
      (∀ b ∈ B, b ≠ (targetOptionsOf lines ifc opt).getLastD (lineDict [])) := by
  have h' : lines.filter (isTargetRec ifc opt) ≠ [] := by
    rw [← targetOptionsOf_eq_filter]; exact h
  obtain ⟨A, B, hAB, hBp, hBne⟩ :=
    filter_getLast_aux (isTargetRec ifc opt) lines (lineDict [])
      ((targetOptionsOf lines ifc opt).getLastD (lineDict []))
      (by rw [← targetOptionsOf_eq_filter]) h'
  exact ⟨A, B, hAB, targetOptionsOf_nil_of B ifc opt hBp, hBne⟩

theorem ifaceLines_decomp (lines : List LineRecord) (ifc : List Char)
    (h : ifaceLinesOf lines ifc ≠ []) :
    ∃ A B, lines = A ++ (ifaceLinesOf lines ifc).getLastD (lineDict []) :: B ∧
      (∀ b ∈ B, ¬ (b.iface = some ifc)) ∧
      (∀ b ∈ B, b ≠ (ifaceLinesOf lines ifc).getLastD (lineDict [])) := by
  unfold ifaceLinesOf at h ⊢
  obtain ⟨A, B, hAB, hBp, hBne⟩ :=
    filter_getLast_decomp (fun r => decide (r.iface = some ifc)) lines (lineDict []) h
  exact ⟨A, B, hAB, fun b hb => by simpa using hBp b hb, hBne⟩

/-
  Branch characterizations of setInterfaceOption.
-/

theorem setOpt_error_notfound (lines : List LineRecord) (ifc opt value state : List Char)
    (h : ifaceLinesOf lines ifc = []) :
    setInterfaceOption lines ifc opt value state = .error (EditError.interfaceNotFound ifc) := by
  have h1 : (ifaceLinesOf lines ifc).length < 1 := by simp [h]
  simp only [setInterfaceOption]
  rw [if_pos h1]

theorem setOpt_error_state (lines : List LineRecord) (ifc opt value state : List Char)
    (hif : ifaceLinesOf lines ifc ≠ [])
    (hp : ¬ state = ("present").toList) (ha : ¬ state = ("absent").toList) :
    setInterfaceOption lines ifc opt value state = .error (EditError.unsupportedState state) := by
  have h1 : ¬ (ifaceLinesOf lines ifc).length < 1 := by
    have := List.length_pos.mpr hif; omega
  simp only [setInterfaceOption]
  rw [if_neg h1, if_neg hp, if_neg ha]

theorem setOpt_insert_eq (lines : List LineRecord) (ifc opt value : List Char)
    (hif : ifaceLinesOf lines ifc ≠ [])
    (ht : targetOptionsOf lines ifc opt = []) :
    setInterfaceOption lines ifc opt value (("present").toList) =
      .ok (true, lines.take (insertIndex lines ifc)
        ++ optionDict (insertLineText lines ifc opt value) ifc opt value
        :: lines.drop (insertIndex lines ifc)) := by
  have h1 : ¬ (ifaceLinesOf lines ifc).length < 1 := by
    have := List.length_pos.mpr hif; omega
  have h2 : (targetOptionsOf lines ifc opt).length < 1 := by simp [ht]
  simp only [setInterfaceOption, insertIndex, insertLineText]
  rw [if_neg h1]
  rw [if_pos (by decide)]
  rw [if_pos h2]

theorem setOpt_update_same (lines : List LineRecord) (ifc opt value : List Char)
    (ht : targetOptionsOf lines ifc opt ≠ [])
    (heq : pySplit (((targetOptionsOf lines ifc opt).getLastD (lineDict [])).value.getD []) =
      pySplit value) :
    setInterfaceOption lines ifc opt value (("present").toList) = .ok (false, lines) := by
  have hif := ifaceLines_ne_of_targets ht
  have h1 : ¬ (ifaceLinesOf lines ifc).length < 1 := by
    have := List.length_pos.mpr hif; omega
  have h2 : ¬ (targetOptionsOf lines ifc opt).length < 1 := by
    have := List.length_pos.mpr ht; omega
  simp only [setInterfaceOption]
  rw [if_neg h1]
  rw [if_pos (by decide)]
  rw [if_neg h2, if_pos heq]

theorem setOpt_update_diff (lines : List LineRecord) (ifc opt value : List Char)
    (ht : targetOptionsOf lines ifc opt ≠ [])
    (hne : ¬ pySplit (((targetOptionsOf lines ifc opt).getLastD (lineDict [])).value.getD []) =
      pySplit value) :
    setInterfaceOption lines ifc opt value (("present").toList) =
      .ok (true, lines.set (updateIndex lines ifc opt)
        (optionDict (updateText lines ifc opt value) ifc opt value)) := by
  have hif := ifaceLines_ne_of_targets ht
  have h1 : ¬ (ifaceLinesOf lines ifc).length < 1 := by
    have := List.length_pos.mpr hif; omega
  have h2 : ¬ (targetOptionsOf lines ifc opt).length < 1 := by
    have := List.length_pos.mpr ht; omega
  simp only [setInterfaceOption, updateIndex, updateText]
  rw [if_neg h1]
  rw [if_pos (by decide)]
  rw [if_neg h2, if_neg hne]

theorem setOpt_absent_found (lines : List LineRecord) (ifc opt value : List Char)
    (ht : targetOptionsOf lines ifc opt ≠ []) :
    setInterfaceOption lines ifc opt value (("absent").toList) =
      .ok (true, lines.filter
        (fun l => decide (¬ l = (targetOptionsOf lines ifc opt).headD (lineDict [])))) := by
  have hif := ifaceLines_ne_of_targets ht
  have h1 : ¬ (ifaceLinesOf lines ifc).length < 1 := by
    have := List.length_pos.mpr hif; omega
  have h2 : (targetOptionsOf lines ifc opt).length ≥ 1 := by
    have := List.length_pos.mpr ht; omega
  have h3 : ¬ ("absent").toList = ("present").toList := by decide
  simp only [setInterfaceOption]
  rw [if_neg h1]
  rw [if_neg h3]
  rw [if_pos (by decide)]
  rw [if_pos h2]

theorem setOpt_absent_none (lines : List LineRecord) (ifc opt value : List Char)
    (hif : ifaceLinesOf lines ifc ≠ [])
    (ht : targetOptionsOf lines ifc opt = []) :
    setInterfaceOption lines ifc opt value (("absent").toList) = .ok (false, lines) := by
  have h1 : ¬ (ifaceLinesOf lines ifc).length < 1 := by
    have := List.length_pos.mpr hif; omega
  have h2 : ¬ (targetOptionsOf lines ifc opt).length ≥ 1 := by simp [ht]
  have h3 : ¬ ("absent").toList = ("present").toList := by decide
  simp only [setInterfaceOption]
  rw [if_neg h1]
  rw [if_neg h3]
  rw [if_pos (by decide)]
  rw [if_neg h2]

/-
  Parser structure lemmas.
-/

theorem updCurrif_map_line (k v : List Char) (rs : List LineRecord) :
    (updCurrif k v rs).map (fun r => r.line) = rs.map (fun r => r.line) := by
  induction rs with
  | nil => rfl
  | cons r t ih =>
    by_cases h : r.line_type = LineType.iface
    · simp [updCurrif, h]
    · simp [updCurrif, h, ih]

theorem updCurrif_length (k v : List Char) (rs : List LineRecord) :
    (updCurrif k v rs).length = rs.length := by
  have := congrArg List.length (updCurrif_map_line k v rs)
  simpa using this

theorem updCurrif_cons_of_ne (k v : List Char) (r : LineRecord) (rs : List LineRecord)
    (h : ¬ r.line_type = LineType.iface) :
    updCurrif k v (r :: rs) = r :: updCurrif k v rs := by
  simp [updCurrif, h]

theorem parseStep_map_line {st : ParseState} {i : Nat} {l : List Char} {st' : ParseState}
    (h : parseStep st i l = .ok st') :
    st'.revLines.map (fun r => r.line) = l :: st.revLines.map (fun r => r.line) := by
  unfold parseStep at h
  rcases hsp : pySplit l with _ | ⟨w, rest⟩ <;> simp only [hsp] at h
  · injection h with h2
    subst h2
    simp [lineDict]
  · repeat' split at h
    all_goals first
      | exact Except.noConfusion h
      | (injection h with h2; subst h2;
         simp [lineDict, optionDict, updCurrif_map_line])

theorem parseLines_map_line : ∀ (input : List (List Char)) (st : ParseState) (i : Nat)
    (st' : ParseState), parseLines st i input = .ok st' →
    st'.revLines.map (fun r => r.line) = input.reverse ++ st.revLines.map (fun r => r.line) := by
  intro input
  induction input with
  | nil =>
    intro st i st' h
    injection h with h2
    subst h2
    simp
  | cons l rest ih =>
    intro st i st' h
    simp only [parseLines] at h
    cases hs : parseStep st (i + 1) l with
    | error e => rw [hs] at h; exact Except.noConfusion h
    | ok st1 =>
      rw [hs] at h
      rw [ih st1 (i + 1) st' h, parseStep_map_line hs]
      simp

/-- C4: parsing stores every input line verbatim in exactly one record, in
order, so concatenating the raw text of all records reproduces the input
byte for byte. -/
theorem C4_round_trip (input : List (List Char)) (recs : List LineRecord)
    (ifmap : List (List Char × PyDict))
    (h : parse input = .ok (recs, ifmap)) :
    recs.map (fun r => r.line) = input ∧
    (recs.map (fun r => r.line)).flatten = input.flatten := by
  unfold parse at h
  cases hp : parseLines initState 0 input with
  | error e => rw [hp] at h; exact Except.noConfusion h
  | ok st =>
    rw [hp] at h
    injection h with h2
    obtain ⟨h3, h4⟩ := Prod.mk.injEq .. ▸ h2
    subst h3
    have hm := parseLines_map_line input initState 0 st hp
    have hfirst : (st.revLines.reverse).map (fun r => r.line) = input := by
      rw [List.map_reverse, hm]
      simp [initState]
    exact ⟨hfirst, by rw [hfirst]⟩

/-- C4 witness: a one-line file round-trips. -/
theorem C4_round_trip_witness :
    ([lineDict (("# c\n").toList)].map (fun r => r.line) = [("# c\n").toList]) ∧
    (([lineDict (("# c\n").toList)].map (fun r => r.line)).flatten = [("# c\n").toList].flatten) :=
  C4_round_trip [("# c\n").toList] [lineDict (("# c\n").toList)] [] (by rfl)

/-- C9: evaluation at the failing input.  An option line whose option name
is the literal word (name) overwrites currif of the stanza dict, so the
following option record is attributed to iface (foo) instead of the most
recent preceding iface header (eth0): the data-model invariant claimed in
the spec is violated by the code. -/
theorem C9_name_option_code_bug :
    parse [("iface eth0 inet static\n").toList, ("    name foo\n").toList,
           ("    address 1.2.3.4\n").toList] =
      .ok ([{ line := ("iface eth0 inet static\n").toList, line_type := LineType.iface,
              iface := some (("eth0").toList),
              params := some [(("name").toList, ("foo").toList),
                              (("address_family").toList, ("inet").toList),
                              (("method").toList, ("static").toList),
                              (("address").toList, ("1.2.3.4").toList)] },
            optionDict (("    name foo\n").toList) (("eth0").toList)
              (("name").toList) (("foo").toList),
            optionDict (("    address 1.2.3.4\n").toList) (("foo").toList)
              (("address").toList) (("1.2.3.4").toList)],
           [(("eth0").toList,
             [(("name").toList, ("foo").toList),
              (("address_family").toList, ("inet").toList),
              (("method").toList, ("static").toList),
              (("address").toList, ("1.2.3.4").toList)])]) ∧
    ("foo").toList ≠ ("eth0").toList :=
  ⟨by rfl, by decide⟩

/-- C2 counterexample: the source reports len(words), the total word count
(5 for this line), not the argument count 4 the claim states. -/
theorem C2_counterexample :
    parse [("iface eth0 inet static dhcp\n").toList] =
      .error (ParseError.malformedIfaceLine 1 5) ∧
    ParseError.malformedIfaceLine 1 5 ≠ ParseError.malformedIfaceLine 1 4 :=
  ⟨by rfl, by decide⟩

/-- C2 amended: a line whose first word is (iface) and which has more than
4 words makes the parser fail reporting the 1-based line number and the
total word count; with fewer than 4 words the tuple unpacking of
words[1:4] fails first, so the reported-count error is never built. -/
theorem C2_malformed_iface_reports_word_count (st : ParseState) (i : Nat) (l : List Char)
    (hw : (pySplit l).headD [] = ("iface").toList) :
    (4 < (pySplit l).length →
      parseStep st i l = .error (ParseError.malformedIfaceLine i (pySplit l).length)) ∧
    ((pySplit l).length < 4 → parseStep st i l = .error (ParseError.ifaceUnpackError i)) := by
  rcases hsplit : pySplit l with _ | ⟨w, rest⟩
  · rw [hsplit] at hw
    exact absurd hw (by decide)
  · rw [hsplit] at hw
    have hww : w = ("iface").toList := by simpa using hw
    subst hww
    constructor
    · intro hlen
      unfold parseStep
      simp only [hsplit]
      rw [if_neg (by decide), if_neg (by decide), if_neg (by decide), if_neg (by decide),
        if_pos (by decide)]
      rw [if_neg (by simp at hlen ⊢; omega)]
      rw [if_pos (by simp at hlen ⊢; omega)]
    · intro hlen
      unfold parseStep
      simp only [hsplit]
      rw [if_neg (by decide), if_neg (by decide), if_neg (by decide), if_neg (by decide),
        if_pos (by decide)]
      rw [if_pos (by simp at hlen ⊢; omega)]

/-- C2 witness: the scenario line evaluated through the amended theorem. -/
theorem C2_malformed_witness :
    parseStep initState 1 (("iface eth0 inet static dhcp\n").toList) =
      .error (ParseError.malformedIfaceLine 1 5) := by
  have h := (C2_malformed_iface_reports_word_count initState 1
    (("iface eth0 inet static dhcp\n").toList) (by decide)).1 (by decide)
  rw [show (pySplit (("iface eth0 inet static dhcp\n").toList)).length = 5 from by decide] at h
  exact h

/-- C8: setInterfaceOption fails with InterfaceNotFound when no record
carries the requested iface name, and with UnsupportedState when the
interface exists but state is neither present nor absent; in both cases
the operation aborts without producing any edited sequence. -/
theorem C8_preconditions (lines : List LineRecord) (ifc opt value state : List Char) :
    ((∀ r ∈ lines, ¬ r.iface = some ifc) →
      setInterfaceOption lines ifc opt value state = .error (EditError.interfaceNotFound ifc)) ∧
    ((∃ r ∈ lines, r.iface = some ifc) → ¬ state = ("present").toList →
      ¬ state = ("absent").toList →
      setInterfaceOption lines ifc opt value state = .error (EditError.unsupportedState state)) := by
  constructor
  · intro h
    apply setOpt_error_notfound
    rw [ifaceLinesOf]
    exact List.filter_eq_nil_iff.mpr (fun a ha => by simp [h a ha])
  · rintro ⟨r, hr, hri⟩ hp ha
    apply setOpt_error_state
    · exact List.ne_nil_of_mem (List.mem_filter.mpr ⟨hr, by simp [hri]⟩)
    · exact hp
    · exact ha

/-- C8 witness: a missing interface and an unsupported state value. -/
theorem C8_preconditions_witness :
    setInterfaceOption [] (("eth1").toList) (("mtu").toList) (("1500").toList)
      (("present").toList) = .error (EditError.interfaceNotFound (("eth1").toList)) ∧
    setInterfaceOption [recIfaceStatic] (("eth0").toList) (("mtu").toList) (("1500").toList)
      (("never").toList) = .error (EditError.unsupportedState (("never").toList)) :=
  ⟨(C8_preconditions [] (("eth1").toList) (("mtu").toList) (("1500").toList)
      (("present").toList)).1 (by simp),
   (C8_preconditions [recIfaceStatic] (("eth0").toList) (("mtu").toList) (("1500").toList)
      (("never").toList)).2 ⟨recIfaceStatic, by simp, by rfl⟩ (by decide) (by decide)⟩

/-- C10: in IFACE mode a line whose first word merely begins with (allow-)
but is not the exact literal — such as allow-hotplug — is recorded as an
Option of the open stanza, with the whole first word as option name and
the remaining words joined as its value, and the mode is not reset; and
more generally any first word other than the eight exact directive
literals leaves the parser in IFACE mode. -/
theorem C10_allow_dash_named_option :
    (∀ (st : ParseState) (i : Nat) (l : List Char) (wtail : List Char)
      (rest : List (List Char)),
      st.mode = PMode.IFACE →
      pySplit l = (("allow-").toList ++ wtail) :: rest →
      wtail ≠ [] →
      ∃ st', parseStep st i l = .ok st' ∧ st'.mode = PMode.IFACE ∧
        st'.revLines.length = st.revLines.length + 1 ∧
        st'.revLines.headD (lineDict []) =
          optionDict l ((dictGet? (("name").toList) (currifOf st.revLines)).getD [])
            (("allow-").toList ++ wtail) (List.intercalate ([' ']) rest)) ∧
    (∀ (st : ParseState) (i : Nat) (l : List Char),
      st.mode = PMode.IFACE →
      (pySplit l).headD [] ∉ [("mapping").toList, ("source").toList, ("source-dir").toList,
        ("iface").toList, ("auto").toList, ("allow-").toList, ("no-auto-down").toList,
        ("no-scripts").toList] →
      ∃ st', parseStep st i l = .ok st' ∧ st'.mode = PMode.IFACE) := by
  constructor
  · intro st i l wtail rest hm hsplit hwt
    have hwform : ("allow-").toList ++ wtail = 'a' :: 'l' :: 'l' :: 'o' :: 'w' :: '-' :: wtail := by
      rfl
    rw [hwform] at hsplit
    have hstep : parseStep st i l =
        .ok { st with
              revLines := updCurrif ('a' :: 'l' :: 'l' :: 'o' :: 'w' :: '-' :: wtail)
                  (List.intercalate ([' ']) rest)
                  (optionDict l
                    ((dictGet? (("name").toList) (currifOf st.revLines)).getD [])
                    ('a' :: 'l' :: 'l' :: 'o' :: 'w' :: '-' :: wtail)
                    (List.intercalate ([' ']) rest) :: st.revLines),
              ifaces := mapSet st.currKey ('a' :: 'l' :: 'l' :: 'o' :: 'w' :: '-' :: wtail)
                (List.intercalate ([' ']) rest) st.ifaces } := by
      unfold parseStep
      simp only [hsplit]
      rw [if_neg (by simp)]
      rw [if_neg (by simp)]
      rw [if_neg (by simp)]
      rw [if_neg (by simp)]
      rw [if_neg (by simp)]
      rw [if_neg (by simp)]
      rw [if_neg (fun hc => hwt (by simpa using hc))]
      rw [if_neg (by simp)]
      rw [if_neg (by simp)]
      simp only [hm]
    refine ⟨_, hstep, hm, ?_, ?_⟩
    · simp [updCurrif_length]
    · rw [hwform]
      have hopt : ¬ (optionDict l
          ((dictGet? (("name").toList) (currifOf st.revLines)).getD [])
          ('a' :: 'l' :: 'l' :: 'o' :: 'w' :: '-' :: wtail)
          (List.intercalate ([' ']) rest)).line_type = LineType.iface := by
        simp [optionDict]
      rw [updCurrif_cons_of_ne _ _ _ _ hopt]
      rfl
  · intro st i l hm hnot
    rcases hsp : pySplit l with _ | ⟨w, rest⟩
    · exact ⟨{ st with revLines := lineDict l :: st.revLines },
        by unfold parseStep; simp only [hsp], hm⟩
    · rw [hsp] at hnot
      simp only [List.headD_cons, List.mem_cons, List.mem_singleton, not_or] at hnot
      obtain ⟨h1, h2, h3, h4, h5, h6, h7, h8, -⟩ := hnot
      by_cases hh : w.headD ' ' = '#'
      · exact ⟨{ st with revLines := lineDict l :: st.revLines },
          by unfold parseStep; simp only [hsp]; rw [if_pos hh], hm⟩
      · refine ⟨{ st with
            revLines := updCurrif w (List.intercalate ([' ']) rest)
              (optionDict l ((dictGet? (("name").toList) (currifOf st.revLines)).getD []) w
                (List.intercalate ([' ']) rest) :: st.revLines),
            ifaces := mapSet st.currKey w (List.intercalate ([' ']) rest) st.ifaces },
          ?_, hm⟩
        unfold parseStep
        simp only [hsp]
        rw [if_neg hh, if_neg h1, if_neg h2, if_neg h3, if_neg h4, if_neg h5,
          if_neg h6, if_neg h7, if_neg h8]
        simp only [hm]

/-- C10 witness: (allow-hotplug eth0) inside an eth0 stanza becomes the
option allow-hotplug with value eth0 and the mode stays IFACE. -/
theorem C10_allow_dash_witness :
    ∃ st', parseStep stateAfterIface 2 (("allow-hotplug eth0\n").toList) = .ok st' ∧
      st'.mode = PMode.IFACE ∧
      st'.revLines.length = stateAfterIface.revLines.length + 1 ∧
      st'.revLines.headD (lineDict []) =
        optionDict (("allow-hotplug eth0\n").toList)
          ((dictGet? (("name").toList) (currifOf stateAfterIface.revLines)).getD [])
          (("allow-").toList ++ ("hotplug").toList)
          (List.intercalate ([' ']) [("eth0").toList]) :=
  C10_allow_dash_named_option.1 stateAfterIface 2 (("allow-hotplug eth0\n").toList)
    (("hotplug").toList) [("eth0").toList] (by rfl) (by decide) (by decide)

/-- C1 counterexample: with the option duplicated on two byte-identical
lines the two option records are equal, and the absent filter removes
both in a single call, not just the first. -/
theorem C1_counterexample :
    parse [("iface eth0 inet static\n").toList, ("    mtu 1500\n").toList,
           ("    mtu 1500\n").toList] =
      .ok ([recIfaceStaticMtu, recMtu1500, recMtu1500],
           [(("eth0").toList, paramsEth0Static ++ [(("mtu").toList, ("1500").toList)])]) ∧
    setInterfaceOption [recIfaceStaticMtu, recMtu1500, recMtu1500] (("eth0").toList)
      (("mtu").toList) (("x").toList) (("absent").toList) = .ok (true, [recIfaceStaticMtu]) ∧
    ([recIfaceStaticMtu] : List LineRecord) ≠ [recIfaceStaticMtu, recMtu1500] :=
  ⟨by rfl, by rfl, by decide⟩

/-- C1 amended: absent removes every record equal to the first target
option record and reports changed; when no other record of the sequence is
field-for-field identical to that first target, exactly one record is
removed and all others are retained in order. -/
theorem C1_absent_removes_unique_target (lines : List LineRecord) (ifc opt value : List Char)
    (t : LineRecord) (ts : List LineRecord)
    (h : targetOptionsOf lines ifc opt = t :: ts)
    (huniq : (lines.filter (fun r => decide (r = t))).length = 1) :
    setInterfaceOption lines ifc opt value (("absent").toList) =
      .ok (true, lines.filter (fun r => decide (¬ r = t))) ∧
    (lines.filter (fun r => decide (¬ r = t))).length + 1 = lines.length := by
  have hne : targetOptionsOf lines ifc opt ≠ [] := by rw [h]; simp
  have hhead : (targetOptionsOf lines ifc opt).headD (lineDict []) = t := by rw [h]; rfl
  constructor
  · rw [setOpt_absent_found lines ifc opt value hne, hhead]
  · have hlen := length_filter_not lines (fun r => decide (r = t))
    have hfe : lines.filter (fun r => decide (¬ r = t)) =
        lines.filter (fun r => ! decide (r = t)) := by
      simp only [decide_not]
    rw [hfe]
    omega

/-- C1 witness: duplicates that differ in raw text are distinct records,
so exactly one is removed. -/
theorem C1_absent_witness :
    setInterfaceOption [recIfaceStatic, recMtu1500, recMtu9000] (("eth0").toList)
      (("mtu").toList) (("x").toList) (("absent").toList) =
      .ok (true, [recIfaceStatic, recMtu1500, recMtu9000].filter
        (fun r => decide (¬ r = recMtu1500))) ∧
    ([recIfaceStatic, recMtu1500, recMtu9000].filter
      (fun r => decide (¬ r = recMtu1500))).length + 1 =
      ([recIfaceStatic, recMtu1500, recMtu9000] : List LineRecord).length :=
  C1_absent_removes_unique_target [recIfaceStatic, recMtu1500, recMtu9000]
    (("eth0").toList) (("mtu").toList) (("x").toList) recMtu1500 [recMtu9000]
    (by decide) (by decide)

/-- C7 counterexample: the absent edit on byte-identical duplicates removes
two records, so the second duplicate is a record other than "the single
removed record" that is not retained. -/
theorem C7_counterexample :
    parse [("iface eth0 inet static\n").toList, ("    mtu 1500\n").toList,
           ("    mtu 1500\n").toList] =
      .ok ([recIfaceStaticMtu, recMtu1500, recMtu1500],
           [(("eth0").toList, paramsEth0Static ++ [(("mtu").toList, ("1500").toList)])]) ∧
    setInterfaceOption [recIfaceStaticMtu, recMtu1500, recMtu1500] (("eth0").toList)
      (("mtu").toList) (("y").toList) (("absent").toList) = .ok (true, [recIfaceStaticMtu]) ∧
    recMtu1500 ∉ ([recIfaceStaticMtu] : List LineRecord) ∧
    ([recIfaceStaticMtu] : List LineRecord).length ≠
      ([recIfaceStaticMtu, recMtu1500, recMtu1500] : List LineRecord).length - 1 :=
  ⟨by rfl, by rfl, by decide, by decide⟩

/-- C7 amended: every successful edit is a single-point insertion, an
in-place replacement of one position, a no-op, or a removal of exactly the
records equal to the first target option; in each case every record not
named by the edit is retained byte for byte in its original order. -/
theorem C7_edit_single_point (lines : List LineRecord) (ifc opt value state : List Char)
    (c : Bool) (L1 : List LineRecord)
    (h : setInterfaceOption lines ifc opt value state = .ok (c, L1)) :
    (∃ A B r, lines = A ++ B ∧ L1 = A ++ r :: B) ∨
    L1 = lines ∨
    (∃ j r, L1 = lines.set j r) ∨
    (∃ t, L1 = lines.filter (fun l => decide (¬ l = t))) := by
  by_cases hif : ifaceLinesOf lines ifc = []
  · rw [setOpt_error_notfound lines ifc opt value state hif] at h
    exact Except.noConfusion h
  by_cases hp : state = ("present").toList
  · subst hp
    by_cases ht : targetOptionsOf lines ifc opt = []
    · rw [setOpt_insert_eq lines ifc opt value hif ht] at h
      injection h with h2
      obtain ⟨h3, h4⟩ := Prod.mk.injEq .. ▸ h2
      subst h4
      exact Or.inl ⟨lines.take (insertIndex lines ifc), lines.drop (insertIndex lines ifc),
        optionDict (insertLineText lines ifc opt value) ifc opt value,
        (List.take_append_drop _ lines).symm, rfl⟩
    · by_cases heq : pySplit (((targetOptionsOf lines ifc opt).getLastD
          (lineDict [])).value.getD []) = pySplit value
      · rw [setOpt_update_same lines ifc opt value ht heq] at h
        injection h with h2
        obtain ⟨h3, h4⟩ := Prod.mk.injEq .. ▸ h2
        exact Or.inr (Or.inl h4.symm)
      · rw [setOpt_update_diff lines ifc opt value ht heq] at h
        injection h with h2
        obtain ⟨h3, h4⟩ := Prod.mk.injEq .. ▸ h2
        exact Or.inr (Or.inr (Or.inl ⟨updateIndex lines ifc opt,
          optionDict (updateText lines ifc opt value) ifc opt value, h4.symm⟩))
  · by_cases ha : state = ("absent").toList
    · subst ha
      by_cases ht : targetOptionsOf lines ifc opt = []
      · rw [setOpt_absent_none lines ifc opt value hif ht] at h
        injection h with h2
        obtain ⟨h3, h4⟩ := Prod.mk.injEq .. ▸ h2
        exact Or.inr (Or.inl h4.symm)
      · rw [setOpt_absent_found lines ifc opt value ht] at h
        injection h with h2
        obtain ⟨h3, h4⟩ := Prod.mk.injEq .. ▸ h2
        exact Or.inr (Or.inr (Or.inr
          ⟨(targetOptionsOf lines ifc opt).headD (lineDict []), h4.symm⟩))
    · rw [setOpt_error_state lines ifc opt value state hif hp ha] at h
      exact Except.noConfusion h

/-- C7 witness: inserting mtu into a stanza with an address option is a
single-point insertion after the stanza's last line. -/
theorem C7_edit_witness :
    (∃ A B r, ([recIfaceStatic, recAddr] : List LineRecord) = A ++ B ∧
      ([recIfaceStatic, recAddr, recMtu1500] : List LineRecord) = A ++ r :: B) ∨
    ([recIfaceStatic, recAddr, recMtu1500] : List LineRecord) = [recIfaceStatic, recAddr] ∨
    (∃ j r, ([recIfaceStatic, recAddr, recMtu1500] : List LineRecord) =
      ([recIfaceStatic, recAddr] : List LineRecord).set j r) ∨
    (∃ t, ([recIfaceStatic, recAddr, recMtu1500] : List LineRecord) =
      ([recIfaceStatic, recAddr] : List LineRecord).filter (fun l => decide (¬ l = t))) :=
  C7_edit_single_point [recIfaceStatic, recAddr] (("eth0").toList) (("mtu").toList)
    (("1500").toList) (("present").toList) true [recIfaceStatic, recAddr, recMtu1500] (by rfl)

/-- C6 counterexample: when the interface already carries the option at the
requested (whitespace-normalized) value, the first call already returns
changed=false, so the claimed unconditional changed=true on the first call
fails. -/
theorem C6_counterexample :
    parse [("iface eth0 inet static\n").toList, ("    mtu 1500\n").toList] =
      .ok ([recIfaceStaticMtu, recMtu1500],
           [(("eth0").toList, paramsEth0Static ++ [(("mtu").toList, ("1500").toList)])]) ∧
    setInterfaceOption [recIfaceStaticMtu, recMtu1500] (("eth0").toList) (("mtu").toList)
      (("1500").toList) (("present").toList) = .ok (false, [recIfaceStaticMtu, recMtu1500]) ∧
    false ≠ true :=
  ⟨by rfl, by rfl, by decide⟩

/-- C6 amended: a second present call with the same value is always a
no-op returning changed=false and the identical sequence; the first call
reports changed=true when the option was missing (and, per the other
branches, exactly when it was missing or differed), and changed=false
implies the first call already left the sequence untouched. -/
theorem C6_present_idempotent (lines : List LineRecord) (ifc opt value : List Char)
    (c : Bool) (L1 : List LineRecord)
    (h : setInterfaceOption lines ifc opt value (("present").toList) = .ok (c, L1)) :
    setInterfaceOption L1 ifc opt value (("present").toList) = .ok (false, L1) ∧
    (targetOptionsOf lines ifc opt = [] → c = true) ∧
    (c = false → L1 = lines) := by
  by_cases hif : ifaceLinesOf lines ifc = []
  · rw [setOpt_error_notfound lines ifc opt value (("present").toList) hif] at h
    exact Except.noConfusion h
  by_cases ht : targetOptionsOf lines ifc opt = []
  · rw [setOpt_insert_eq lines ifc opt value hif ht] at h
    injection h with h2
    obtain ⟨h3, h4⟩ := Prod.mk.injEq .. ▸ h2
    subst h4
    have htparts : targetOptionsOf (lines.take (insertIndex lines ifc)) ifc opt = [] ∧
        targetOptionsOf (lines.drop (insertIndex lines ifc)) ifc opt = [] := by
      have hta := targetOptionsOf_append (lines.take (insertIndex lines ifc))
        (lines.drop (insertIndex lines ifc)) ifc opt
      rw [List.take_append_drop, ht] at hta
      exact ⟨(List.append_eq_nil.mp hta.symm).1, (List.append_eq_nil.mp hta.symm).2⟩
    have htgt : targetOptionsOf (lines.take (insertIndex lines ifc)
        ++ optionDict (insertLineText lines ifc opt value) ifc opt value
        :: lines.drop (insertIndex lines ifc)) ifc opt =
        [optionDict (insertLineText lines ifc opt value) ifc opt value] := by
      rw [targetOptionsOf_append, htparts.1,
        targetOptionsOf_cons_target _ _ _ _ (isTargetRec_optionDict _ _ _ _), htparts.2]
      rfl
    have hne2 : targetOptionsOf (lines.take (insertIndex lines ifc)
        ++ optionDict (insertLineText lines ifc opt value) ifc opt value
        :: lines.drop (insertIndex lines ifc)) ifc opt ≠ [] := by
      rw [htgt]; simp
    refine ⟨setOpt_update_same _ ifc opt value hne2 (by rw [htgt]; rfl), fun _ => h3.symm, ?_⟩
    intro hc
    exact absurd (h3.trans hc) (by decide)
  · by_cases heq : pySplit (((targetOptionsOf lines ifc opt).getLastD
        (lineDict [])).value.getD []) = pySplit value
    · rw [setOpt_update_same lines ifc opt value ht heq] at h
      injection h with h2
      obtain ⟨h3, h4⟩ := Prod.mk.injEq .. ▸ h2
      subst h4
      exact ⟨setOpt_update_same lines ifc opt value ht heq, fun h0 => absurd h0 ht,
        fun _ => rfl⟩
    · rw [setOpt_update_diff lines ifc opt value ht heq] at h
      injection h with h2
      obtain ⟨h3, h4⟩ := Prod.mk.injEq .. ▸ h2
      subst h4
      set newRec := optionDict (updateText lines ifc opt value) ifc opt value with hnr
      set tl := (targetOptionsOf lines ifc opt).getLastD (lineDict []) with htl
      obtain ⟨A, B, hAB, hBt, hBne⟩ := targets_decomp lines ifc opt ht
      rw [← htl] at hAB hBne
      have hpi : pyIndex lines.reverse tl = B.length := by
        conv =>
          lhs
          rw [hAB]
        exact pyIndex_reverse_decomp A B tl hBne
      have hlenl : lines.length = A.length + B.length + 1 := by
        rw [hAB]
        simp only [List.length_append, List.length_cons]
        omega
      have hidx : updateIndex lines ifc opt = A.length := by
        unfold updateIndex
        rw [← htl, hpi, hlenl]
        omega
      have hset : lines.set (updateIndex lines ifc opt) newRec = A ++ newRec :: B := by
        rw [hidx]
        conv =>
          lhs
          rw [hAB]
        exact set_append_cons A tl newRec B
      rw [hset]
      have hnt : isTargetRec ifc opt newRec = true := by
        rw [hnr]
        exact isTargetRec_optionDict _ _ _ _
      have htgtL1 : targetOptionsOf (A ++ newRec :: B) ifc opt =
          targetOptionsOf A ifc opt ++ [newRec] := by
        rw [targetOptionsOf_append, targetOptionsOf_cons_target _ _ _ _ hnt, hBt]
      have hlastL1 : (targetOptionsOf (A ++ newRec :: B) ifc opt).getLastD (lineDict []) =
          newRec := by
        rw [htgtL1, getLastD_append_right _ _ (by simp)]
        rfl
      have hne2 : targetOptionsOf (A ++ newRec :: B) ifc opt ≠ [] := by
        rw [htgtL1]; simp
      refine ⟨setOpt_update_same _ ifc opt value hne2 (by rw [hlastL1, hnr]; rfl),
        fun h0 => absurd h0 ht, ?_⟩
      intro hc
      exact absurd (h3.trans hc) (by decide)

/-- C6 witness: adding mtu 1500 then repeating the call is a no-op the
second time. -/
theorem C6_present_witness :
    setInterfaceOption [recIfaceStatic, recAddr, recMtu1500] (("eth0").toList)
      (("mtu").toList) (("1500").toList) (("present").toList) =
      .ok (false, [recIfaceStatic, recAddr, recMtu1500]) ∧
    (targetOptionsOf [recIfaceStatic, recAddr] (("eth0").toList) (("mtu").toList) = [] →
      true = true) ∧
    (true = false → ([recIfaceStatic, recAddr, recMtu1500] : List LineRecord) =
      [recIfaceStatic, recAddr]) :=
  C6_present_idempotent [recIfaceStatic, recAddr] (("eth0").toList) (("mtu").toList)
    (("1500").toList) true [recIfaceStatic, recAddr, recMtu1500] (by rfl)

/-
  Facts about the Python string primitives.
-/

theorem pyFindN_bounds {t sub : List Char} {start : Int} {i : Nat}
    (h : pyFindN t sub start = some i) :
    i ≤ t.length ∧ sub.isPrefixOf (t.drop i) = true := by
  unfold pyFindN at h
  have h1 := List.find?_some h
  have h2 := List.mem_of_find?_eq_some h
  simp only [Bool.and_eq_true] at h1
  exact ⟨by have := List.mem_range.mp h2; omega, h1.2⟩

theorem pyFind_of_pyFindN {t sub : List Char} {start : Int} {i : Nat}
    (h : pyFindN t sub start = some i) : pyFind t sub start = (i : Int) := by
  unfold pyFind
  rw [h]

theorem isPrefixOf_drop_length {sub t : List Char} {i : Nat}
    (h : sub.isPrefixOf (t.drop i) = true) (hi : i ≤ t.length) :
    i + sub.length ≤ t.length := by
  have hp : sub <+: t.drop i := List.isPrefixOf_iff_prefix.mp h
  have hl := hp.length_le
  rw [List.length_drop] at hl
  omega

theorem take_of_isPrefixOf {sub t : List Char} {i : Nat}
    (h : sub.isPrefixOf (t.drop i) = true) : (t.drop i).take sub.length = sub := by
  have hp : sub <+: t.drop i := List.isPrefixOf_iff_prefix.mp h
  exact (List.prefix_iff_eq_take.mp hp).symm

theorem pySlice_zero_nat (t : List Char) (i : Nat) (h : i ≤ t.length) :
    pySlice t 0 (i : Int) = t.take i := by
  simp only [pySlice]
  rw [if_neg (by omega), if_neg (by omega)]
  simp [Int.toNat_ofNat, min_eq_left h]

theorem pySlice_from_nat (t : List Char) (i : Nat) :
    pySlice t (i : Int) (t.length : Int) = t.drop i := by
  simp only [pySlice]
  rw [if_neg (by omega), if_neg (by omega)]
  rcases le_total i t.length with h | h
  · simp [min_eq_left h, List.take_length]
  · simp [min_eq_right h, List.take_length, List.drop_length,
      List.drop_eq_nil_of_le h]

theorem pySlice_nat_nat (t : List Char) (i k : Nat) (h : i + k ≤ t.length) :
    pySlice t (i : Int) ((i : Int) + (k : Int)) = (t.drop i).take k := by
  simp only [pySlice]
  rw [if_neg (by omega), if_neg (by omega)]
  have hb : ((i : Int) + (k : Int)).toNat = i + k := by omega
  have ha : ((i : Nat) : Int).toNat = i := by omega
  rw [hb, ha, min_eq_left h, min_eq_left (by omega : i ≤ t.length), List.drop_take]
  congr 1
  omega

theorem isPrefixOf_rfl (l : List Char) : l.isPrefixOf l = true :=
  List.isPrefixOf_iff_prefix.mpr (List.prefix_refl l)

theorem pyReplaceAux_nil (old new : List Char) (fuel : Nat) :
    pyReplaceAux old new fuel [] = [] := by
  cases fuel <;> rfl

theorem pyReplace_self (old new : List Char) : pyReplace old old new = new := by
  cases old with
  | nil => simp [pyReplace]
  | cons o os =>
    have h1 : pyReplace (o :: os) (o :: os) new
        = pyReplaceAux (o :: os) new (os.length + 1) (o :: os) := by
      unfold pyReplace
      rw [if_neg (by simp)]
      rfl
    have h2 : pyReplaceAux (o :: os) new (os.length + 1) (o :: os)
        = new ++ pyReplaceAux (o :: os) new os.length ((o :: os).drop (o :: os).length) := by
      rw [pyReplaceAux]
      rw [if_pos (isPrefixOf_rfl (o :: os))]
    rw [h1, h2, List.drop_length, pyReplaceAux_nil]
    simp

/-- C3 counterexample: on the option line (ab b b), updating option (ab)
from value (b b) to (c c) finds the old value starting at the second
character of the option name itself (search begins at len(option)-1 past
its start, one character early), splicing into the option name and
producing (ac c b) instead of the (ab c c) a strictly-after search would
give. -/
theorem C3_counterexample :
    parse [("iface eth0 inet static\n").toList, ("ab b b\n").toList] =
      .ok ([recIfaceStaticAb, recAb],
           [(("eth0").toList, paramsEth0Static ++ [(("ab").toList, ("b b").toList)])]) ∧
    setInterfaceOption [recIfaceStaticAb, recAb] (("eth0").toList) (("ab").toList)
      (("c c").toList) (("present").toList) =
      .ok (true, [recIfaceStaticAb,
        optionDict (("ac c b\n").toList) (("eth0").toList) (("ab").toList) (("c c").toList)]) ∧
    ("ac c b\n").toList ≠ ("ab c c\n").toList :=
  ⟨by rfl, by rfl, by decide⟩

/-- C3 amended: the update searches for the old value starting one
character before the end of the option-name token (at its first occurrence
plus len(option) - 1), so a match may overlap the option name's last
character; when the search succeeds at index st0, the new value is spliced
into exactly the range [st0, st0 + len(old value)), every character before
and after is untouched, and that single record is replaced in place. -/
theorem C3_update_splices_found_range (lines : List LineRecord) (ifc opt value : List Char)
    (ht : targetOptionsOf lines ifc opt ≠ [])
    (hne : ¬ pySplit (((targetOptionsOf lines ifc opt).getLastD (lineDict [])).value.getD [])
      = pySplit value)
    (st0 : Nat)
    (hfound : pyFindN ((targetOptionsOf lines ifc opt).getLastD (lineDict [])).line
        (((targetOptionsOf lines ifc opt).getLastD (lineDict [])).value.getD [])
        (pyFind ((targetOptionsOf lines ifc opt).getLastD (lineDict [])).line opt 0
          + (opt.length : Int) - 1) = some st0) :
    ∃ A B, lines = A ++ (targetOptionsOf lines ifc opt).getLastD (lineDict []) :: B ∧
      targetOptionsOf B ifc opt = [] ∧
      setInterfaceOption lines ifc opt value (("present").toList) =
        .ok (true, A ++ optionDict
          (((targetOptionsOf lines ifc opt).getLastD (lineDict [])).line.take st0
            ++ value
            ++ ((targetOptionsOf lines ifc opt).getLastD (lineDict [])).line.drop
              (st0 + (((targetOptionsOf lines ifc opt).getLastD
                (lineDict [])).value.getD []).length))
          ifc opt value :: B) := by
  set tl := (targetOptionsOf lines ifc opt).getLastD (lineDict []) with htl
  obtain ⟨A, B, hAB, hBt, hBne⟩ := targets_decomp lines ifc opt ht
  rw [← htl] at hAB hBne
  refine ⟨A, B, hAB, hBt, ?_⟩
  rw [setOpt_update_diff lines ifc opt value ht hne]
  have hpi : pyIndex lines.reverse tl = B.length := by
    conv =>
      lhs
      rw [hAB]
    exact pyIndex_reverse_decomp A B tl hBne
  have hlenl : lines.length = A.length + B.length + 1 := by
    rw [hAB]
    simp only [List.length_append, List.length_cons]
    omega
  have hidx : updateIndex lines ifc opt = A.length := by
    unfold updateIndex
    rw [← htl, hpi, hlenl]
    omega
  have hstart : pyFind tl.line (tl.value.getD [])
      (pyFind tl.line opt 0 + (opt.length : Int) - 1) = (st0 : Int) :=
    pyFind_of_pyFindN hfound
  obtain ⟨hle, hpre⟩ := pyFindN_bounds hfound
  have hik := isPrefixOf_drop_length hpre hle
  have htext : updateText lines ifc opt value =
      tl.line.take st0 ++ value ++ tl.line.drop (st0 + (tl.value.getD []).length) := by
    simp only [updateText]
    rw [← htl, hstart]
    have hcast : (st0 : Int) + ((tl.value.getD []).length : Int) =
        ((st0 + (tl.value.getD []).length : Nat) : Int) := by push_cast; ring
    rw [pySlice_zero_nat tl.line st0 hle]
    rw [pySlice_nat_nat tl.line st0 (tl.value.getD []).length hik,
      take_of_isPrefixOf hpre, pyReplace_self]
    rw [hcast, pySlice_from_nat]
  rw [htext, hidx]
  conv =>
    lhs
    rw [hAB]
  rw [set_append_cons]

/-- C3 witness: updating mtu 1500 to 9000 splices 9000 into exactly the
old value's range of the raw line. -/
theorem C3_update_witness :
    ∃ A B, ([recIfaceStaticMtu, recMtu1500] : List LineRecord) =
      A ++ (targetOptionsOf [recIfaceStaticMtu, recMtu1500] (("eth0").toList)
        (("mtu").toList)).getLastD (lineDict []) :: B ∧
    targetOptionsOf B (("eth0").toList) (("mtu").toList) = [] ∧
    setInterfaceOption [recIfaceStaticMtu, recMtu1500] (("eth0").toList) (("mtu").toList)
      (("9000").toList) (("present").toList) =
      .ok (true, A ++ optionDict
        (((targetOptionsOf [recIfaceStaticMtu, recMtu1500] (("eth0").toList)
            (("mtu").toList)).getLastD (lineDict [])).line.take 8
          ++ ("9000").toList
          ++ ((targetOptionsOf [recIfaceStaticMtu, recMtu1500] (("eth0").toList)
            (("mtu").toList)).getLastD (lineDict [])).line.drop
            (8 + ((((targetOptionsOf [recIfaceStaticMtu, recMtu1500] (("eth0").toList)
              (("mtu").toList)).getLastD (lineDict [])).value.getD []).length)))
        (("eth0").toList) (("mtu").toList) (("9000").toList) :: B) :=
  C3_update_splices_found_range [recIfaceStaticMtu, recMtu1500] (("eth0").toList)
    (("mtu").toList) (("9000").toList) (by decide) (by decide) 8 (by decide)

/-- C5 counterexample: the inserted line's suffix starts after the FIRST
occurrence of the anchor's last word, so on (iface eth0 inet inet) the
trailing ( inet) is duplicated into the new line instead of just the line
terminator the claim predicts. -/
theorem C5_counterexample :
    parse [("iface eth0 inet inet\n").toList] =
      .ok ([recIfaceInet],
           [(("eth0").toList, [(("name").toList, ("eth0").toList),
             (("address_family").toList, ("inet").toList),
             (("method").toList, ("inet").toList)])]) ∧
    setInterfaceOption [recIfaceInet] (("eth0").toList) (("mtu").toList) (("1500").toList)
      (("present").toList) =
      .ok (true, [recIfaceInet,
        optionDict (("    mtu 1500 inet\n").toList) (("eth0").toList) (("mtu").toList)
          (("1500").toList)]) ∧
    ("    mtu 1500 inet\n").toList ≠ ("    mtu 1500\n").toList :=
  ⟨by rfl, by rfl, by decide⟩

/-- C5 amended: a brand-new option is inserted immediately after the
interface's last record, never at end of file; the new text is the anchor
text up to the first occurrence of its first word, an extra 4-space indent
when the stanza has no option line yet, option, a space, the value, and
the anchor text after the FIRST occurrence of its last word's text plus
that word's length (which is the text after the last word only when the
last word's text occurs nowhere earlier in the line). -/
theorem C5_insert_after_last_line (lines : List LineRecord) (ifc opt value : List Char)
    (hif : ifaceLinesOf lines ifc ≠ [])
    (ht : targetOptionsOf lines ifc opt = [])
    (p0 pl : Nat)
    (hF0 : pyFindN ((ifaceLinesOf lines ifc).getLastD (lineDict [])).line
        ((pySplit ((ifaceLinesOf lines ifc).getLastD (lineDict [])).line).headD []) 0 =
        some p0)
    (hFL : pyFindN ((ifaceLinesOf lines ifc).getLastD (lineDict [])).line
        ((pySplit ((ifaceLinesOf lines ifc).getLastD (lineDict [])).line).getLastD []) 0 =
        some pl) :
    ∃ A B, lines = A ++ (ifaceLinesOf lines ifc).getLastD (lineDict []) :: B ∧
      (∀ r ∈ B, ¬ r.iface = some ifc) ∧
      setInterfaceOption lines ifc opt value (("present").toList) =
        .ok (true, A ++ (ifaceLinesOf lines ifc).getLastD (lineDict []) ::
          optionDict
            (((ifaceLinesOf lines ifc).getLastD (lineDict [])).line.take p0
              ++ (if (ifaceOptionsOf lines ifc).length < 1 then ("    ").toList else [])
              ++ opt ++ ' ' :: value
              ++ ((ifaceLinesOf lines ifc).getLastD (lineDict [])).line.drop
                (pl + ((pySplit ((ifaceLinesOf lines ifc).getLastD
                  (lineDict [])).line).getLastD []).length))
            ifc opt value :: B) := by
  set anchor := (ifaceLinesOf lines ifc).getLastD (lineDict []) with hanc
  obtain ⟨A, B, hAB, hBp, hBne⟩ := ifaceLines_decomp lines ifc hif
  rw [← hanc] at hAB hBne
  refine ⟨A, B, hAB, hBp, ?_⟩
  rw [setOpt_insert_eq lines ifc opt value hif ht]
  have hpi : pyIndex lines.reverse anchor = B.length := by
    conv =>
      lhs
      rw [hAB]
    exact pyIndex_reverse_decomp A B anchor hBne
  have hlenl : lines.length = A.length + B.length + 1 := by
    rw [hAB]
    simp only [List.length_append, List.length_cons]
    omega
  have hidx : insertIndex lines ifc = A.length + 1 := by
    unfold insertIndex
    rw [← hanc, hpi, hlenl]
    omega
  have htext : insertLineText lines ifc opt value =
      anchor.line.take p0
        ++ (if (ifaceOptionsOf lines ifc).length < 1 then ("    ").toList else [])
        ++ opt ++ ' ' :: value
        ++ anchor.line.drop (pl + ((pySplit anchor.line).getLastD []).length) := by
    simp only [insertLineText]
    rw [← hanc]
    rw [pyFind_of_pyFindN hF0, pyFind_of_pyFindN hFL]
    obtain ⟨hle0, hpre0⟩ := pyFindN_bounds hF0
    have hcast : (pl : Int) + ((((pySplit anchor.line).getLastD []).length : Nat) : Int) =
        ((pl + ((pySplit anchor.line).getLastD []).length : Nat) : Int) := by
      push_cast; ring
    rw [pySlice_zero_nat anchor.line p0 hle0, hcast, pySlice_from_nat]
  rw [htext, hidx]
  conv =>
    lhs
    rw [hAB]
  rw [take_append_cons, drop_append_cons]
  simp only [List.append_assoc, List.cons_append, List.nil_append, List.append_nil]
  rw [← hAB]

/-- C5 witness: the spec scenario — adding mtu 1500 under eth0 whose last
line is the address option inserts (    mtu 1500) right after it. -/
theorem C5_insert_witness :
    ∃ A B, ([recIfaceStatic, recAddr] : List LineRecord) =
      A ++ (ifaceLinesOf [recIfaceStatic, recAddr] (("eth0").toList)).getLastD
        (lineDict []) :: B ∧
      (∀ r ∈ B, ¬ r.iface = some (("eth0").toList)) ∧
      setInterfaceOption [recIfaceStatic, recAddr] (("eth0").toList) (("mtu").toList)
        (("1500").toList) (("present").toList) =
        .ok (true, A ++ (ifaceLinesOf [recIfaceStatic, recAddr]
            (("eth0").toList)).getLastD (lineDict []) ::
          optionDict
            (((ifaceLinesOf [recIfaceStatic, recAddr] (("eth0").toList)).getLastD
                (lineDict [])).line.take 4
              ++ (if (ifaceOptionsOf [recIfaceStatic, recAddr]
                  (("eth0").toList)).length < 1 then ("    ").toList else [])
              ++ ("mtu").toList ++ ' ' :: ("1500").toList
              ++ ((ifaceLinesOf [recIfaceStatic, recAddr] (("eth0").toList)).getLastD
                (lineDict [])).line.drop
                (12 + ((pySplit ((ifaceLinesOf [recIfaceStatic, recAddr]
                  (("eth0").toList)).getLastD (lineDict [])).line).getLastD []).length))
            (("eth0").toList) (("mtu").toList) (("1500").toList) :: B) :=
  C5_insert_after_last_line [recIfaceStatic, recAddr] (("eth0").toList) (("mtu").toList)
    (("1500").toList) (by decide) (by decide) 4 12 (by decide) (by decide)

end InterfacesFile
